import Mathlib

/-!
Shallow embedding of the scavenge web-scraping framework (Go) used to check
the natural-language specification against the code.

Conventions of the embedding:
  - Go byte slices are `List Nat`, Go strings are `String`.
  - `time.Duration` and other machine integers are `Int` (nanoseconds for
    durations); where int64 overflow matters it is made explicit with
    `wrap64`, which reduces an integer to the two's-complement int64 range.
  - Go's `net/url.URL` is modelled by the two observations the verified code
    makes of it: `Host` (may include a port) and `Hostname()` (no port).
    URL parsing and reference resolution (`net/url`) and glob compilation
    (`gobwas/glob`) are external libraries and enter as function parameters.
  - The heterogeneous `[]any` metadata bag is modelled parametrically by a
    type `M` of metadata elements.
  - Fallible Go code returning `(T, error)` is modelled with `Option`/
    `Except`/explicit pairs, mirroring the nil-checks of the source.
-/

namespace Scavenge

/-- Go `[]byte`. -/
abbrev Bytes := List Nat

/-- Go `net/url.URL`, restricted to the observations made by the embedded
code: `host` is Go's `URL.Host` (may carry a port), `hostname` is the result
of `URL.Hostname()` (port stripped). -/
structure URL where
  host : String
  hostname : String
deriving DecidableEq, Repr

/-- Go `net/http.Header`: a multi-valued string map, as an association list. -/
abbrev Headers := List (String × List String)

/-- `downloader.Request` (src/unnamed/part_012): method, url, headers, body
and the unexported `meta []any` bag, parametric in the element type `M`.
`DirectBody`/`DirectResponse` carry opaque readers/flags not observed by any
claim and are omitted. -/
structure Request (M : Type) where
  method : String
  url : URL
  headers : Headers
  body : Bytes
  meta : List M
deriving DecidableEq, Repr

/-- `downloader.Response` (src/downloader/response.go): originating request,
status, final url, headers, body. -/
structure Response (M : Type) where
  request : Request M
  status : Int
  url : URL
  headers : Headers
  body : Bytes
deriving DecidableEq, Repr

/-- `downloader.GETRequest` (src/unnamed/part_012): a GET request with no
headers, body or metadata. -/
def GETRequest (M : Type) (u : URL) : Request M :=
  { method := "GET", url := u, headers := [], body := [], meta := [] }

/-- `downloader.DroppedRequest` (src/unnamed/part_005, lines 33-36):
`fmt.Errorf("dropped request: %w", reason)`.  Errors are modelled as their
message strings, since the scheduler classifies them by substring search. -/
def droppedRequest (reason : String) : String :=
  "dropped request: " ++ reason

/-- Helper for `strContains`: whether the first list is a prefix of the
second (byte-for-byte, here char-for-char). -/
def charsLeading : List Char → List Char → Bool
  | [], _ => true
  | _ :: _, [] => false
  | a :: as, b :: bs => a == b && charsLeading as bs

/-- Helper for `strContains`: whether `sub` occurs contiguously in `l`. -/
def charsContains : List Char → List Char → Bool
  | [], sub => charsLeading sub []
  | x :: rest, sub => charsLeading sub (x :: rest) || charsContains rest sub

/-- Go `strings.Contains(s, sub)` (all involved strings are ASCII, so char
and byte granularity agree). -/
def strContains (s sub : String) : Bool :=
  charsContains s.toList sub.toList

/-- Go's built-in `copy(dst, src)`: copies `min (len dst) (len src)`
elements of `src` onto the prefix of `dst`; this returns the resulting
contents of `dst`. -/
def goCopy {α : Type} (dst src : List α) : List α :=
  let n := min dst.length src.length
  src.take n ++ dst.drop n

/-- Two's-complement reduction to the int64 range: Go's defined wrap-around
semantics for signed integer arithmetic.  The literals are `2^63` and
`2^64`. -/
def wrap64 (n : Int) : Int :=
  (n + 9223372036854775808) % 18446744073709551616 - 9223372036854775808

namespace Items

/-- `items.Item` / `item.Item`: an ordered sequence of arbitrary values,
parametric in the element type. -/
abbrev Item (M : Type) := List M

/-- `items.Item.Clone` (src/unnamed/part_000, lines 31-36):
`var out Item; copy(i, out); return out` - the copy runs with `i` as
destination and the empty `out` as source, and `out` is returned. -/
def Clone {M : Type} (i : Item M) : Item M :=
  let out : Item M := []
  let _ := goCopy i out
  out

/-- `item.Item.Entries` (src/item/item.go, lines 29-34): identical body to
`Clone` - `var out []any; copy(i, out); return out`. -/
def Entries {M : Type} (i : Item M) : Item M :=
  let out : Item M := []
  let _ := goCopy i out
  out

end Items

namespace Sched

/-- `Scavenger.retryDelay` (src/scavenger.go, lines 272-283) for a given
attempt number and jitter draw.

    seconds := int(math.Pow(2, float64(attempt)))   -- exact for attempt <= 62
    jitter  := rand.IntN(seconds)                   -- so 0 <= jitter < seconds
    delay   := time.Second * time.Duration(seconds+jitter)

`time.Second = 10^9` nanoseconds and `time.Duration` is an int64, so the
multiplication wraps at 2^64 into the signed range (`wrap64`); the sum
`seconds+jitter` itself stays below 2^63 for attempt <= 62.  The result is
then clamped to `[minRetryDelay, maxRetryDelay]`. -/
def retryDelay (minRetryDelay maxRetryDelay : Int) (attempt : Nat) (jitter : Nat) : Int :=
  let seconds : Int := 2 ^ attempt
  let delay : Int := wrap64 (1000000000 * (seconds + jitter))
  if delay < minRetryDelay then minRetryDelay
  else if delay > maxRetryDelay then maxRetryDelay
  else delay

/-- Observable actions of `Scavenger.handleRequest` (src/scavenger.go,
lines 143-208), in program order.  `retryScheduled` is the call to
`Scavenger.retryReqJob`; the two fail-handler actions are the calls to the
configured `reqFailHandler` / `spiderFailHandler`; the `defer s.wg.Done()`
is accounted for separately in the job-lifecycle model below. -/
inductive Act where
  | logInfoDownload : Act
  | logInfoDropped : Act
  | logErrorDownload : Act
  | reqFailHandler : Act
  | retryScheduled : Act
  | logErrorSpider : Act
  | spiderFailHandler : Act
deriving DecidableEq, Repr

/-- `Scavenger.handleRequest` (src/scavenger.go, lines 143-208), as the
ordered list of observable actions it performs.  Inputs: whether the two
fail handlers are configured (non-nil), the result of
`downloader.Download` (error modelled as its message string), and the
spider's `HandleResponse` outcome on the obtained response.

    if err != nil:
      if strings.Contains(err.Error(), "dropped request:"): log info; return
      log error; if reqFailHandler != nil { reqFailHandler(...) }; retryReqJob
    err = spider.HandleResponse(...)
    if err != nil: log error; if spiderFailHandler != nil { ... }; retryReqJob
-/
def handleRequest {M : Type} (reqFailSet spiderFailSet : Bool)
    (dlResult : Except String (Response M))
    (spider : Response M → Option String) : List Act :=
  Act.logInfoDownload ::
    match dlResult with
    | Except.error err =>
      if strContains err ("dropped request:") then [Act.logInfoDropped]
      else
        Act.logErrorDownload ::
          (if reqFailSet then [Act.reqFailHandler] else []) ++ [Act.retryScheduled]
    | Except.ok res =>
      match spider res with
      | none => []
      | some _ =>
        Act.logErrorSpider ::
          (if spiderFailSet then [Act.spiderFailHandler] else []) ++ [Act.retryScheduled]

/-- The possible complete lifecycles of a job once a worker has received it
(src/scavenger.go).  `success` and `dropped` end in the handler's deferred
`wg.Done()` alone; the three `failThen*` constructors are the retry paths:
`handleRequest`/`handleItem` calls `retryReqJob`/`retryItemJob`
(`wg.Add(1)` before the handler's own deferred `wg.Done()` runs), and the
retry goroutine then either observes `ctx.Done()` before the timer fires
(`wg.Done()`, lines 296-298), panics sending on a channel closed during
shutdown (`recoverAndCancelJob` runs `wg.Done()`, lines 244-249), or fires
and re-enqueues the job, whose own handling follows recursively. -/
inductive Handling where
  | success : Handling
  | dropped : Handling
  | failThenCancelled : Handling
  | failThenPanicked : Handling
  | failThenRefire : Handling → Handling
deriving DecidableEq, Repr

/-- A full job history starting from an enqueue (`queueReqJob` /
`queueItemJob`, src/scavenger.go lines 251-270): `wg.Add(1)`, then either
the background send panics on a closed channel during shutdown
(`recoverAndCancelJob` → `wg.Done()`) or a worker receives the job and
handles it. -/
inductive JobRun where
  | handled : Handling → JobRun
  | sendPanicked : JobRun
deriving DecidableEq, Repr

/-- The WaitGroup deltas (`+1` for `wg.Add(1)`, `-1` for `wg.Done()`)
produced by a handling, in causal order. -/
def handlingEvents : Handling → List Int
  | Handling.success => [-1]
  | Handling.dropped => [-1]
  | Handling.failThenCancelled => [1, -1, -1]
  | Handling.failThenPanicked => [1, -1, -1]
  | Handling.failThenRefire next => 1 :: -1 :: handlingEvents next

/-- The WaitGroup deltas of a full job history, starting with the `+1` of
the enqueue. -/
def jobEvents : JobRun → List Int
  | JobRun.handled h => 1 :: handlingEvents h
  | JobRun.sendPanicked => [1, -1]

/-- An interleaving of the per-job event sequences: at every step the next
counter delta comes from the head of some job's remaining sequence
(concurrent workers, enqueue goroutines, and retry timers may be
arbitrarily scheduled). -/
inductive Interleaving : List (List Int) → List Int → Prop where
  | done : ∀ ts, (∀ t ∈ ts, t = []) → Interleaving ts []
  | step : ∀ ts i e rest out, ts[i]? = some (e :: rest) →
      Interleaving (ts.set i rest) out → Interleaving ts (e :: out)

/-- Invariant of the interleaving argument: `t` is the remaining event
suffix of one job whose already-consumed events currently contribute `d`
to the counter; the contribution is never negative, the suffix pays it
all back, and no prefix of the suffix overdraws it. -/
def SuffixOk (t : List Int) (d : Int) : Prop :=
  0 ≤ d ∧ t.sum = -d ∧ ∀ n, -d ≤ (t.take n).sum

end Sched

-- Concrete fixtures used by the closed evaluation theorems.
namespace Fix

def url (h : String) : URL := { host := h, hostname := h }

def req (h : String) : Request Unit :=
  { method := "GET", url := url h, headers := [], body := [], meta := [] }

def res (h : String) (status : Int) : Response Unit :=
  { request := req h, status := status, url := url h, headers := [], body := [] }

def reqM {M : Type} (h : String) (meta : List M) : Request M :=
  { method := "GET", url := url h, headers := [], body := [], meta := meta }

def resM {M : Type} (h : String) (status : Int) (meta : List M) : Response M :=
  { request := reqM h meta, status := status, url := url h, headers := [], body := [] }

end Fix

namespace DL

/-- `downloader.ResponseMetadata` (src/downloader/downloader.go, lines
9-11): the wall time elapsed around `Client.Do`. -/
structure ResponseMetadata where
  elapsed : Int
deriving DecidableEq, Repr

/-- `downloader.Middleware` (src/downloader/downloader.go, lines 19-22).
`HandleRequest` returns `(*Response, error)`, modelled as an explicit pair
of options since the source checks the error before the response. -/
structure Middleware (M : Type) where
  handleRequest : Request M → Option (Response M) × Option String
  handleResponse : Response M → ResponseMetadata → Option String

/-- Invocation events of a `Download` call, for stating which collaborators
run: request-phase middleware `i`, the `Client.Do` fetch (together with its
elapsed-time measurement), response-phase middleware `i`. -/
inductive Ev where
  | reqMW : Nat → Ev
  | clientDo : Ev
  | respMW : Nat → Ev
deriving DecidableEq, Repr

/-- The request-phase loop of `Downloader.Download` (src/downloader/
downloader.go, lines 62-70), with the index of the middleware being
invoked threaded for the event log:

    for _, mid := range d.cfg.middleware {
      res, err := mid.HandleRequest(ctx, d, req)
      if err != nil { return nil, fmt.Errorf("req middleware: %w", err) }
      if res != nil { return res, nil }
    }
-/
def reqPhase {M : Type} : List (Middleware M) → Nat → Request M →
    Except String (Option (Response M)) × List Ev
  | [], _, _ => (Except.ok none, [])
  | mid :: rest, i, req =>
    let r := mid.handleRequest req
    match r.2 with
    | some e => (Except.error ("req middleware: " ++ e), [Ev.reqMW i])
    | none =>
      match r.1 with
      | some res => (Except.ok (some res), [Ev.reqMW i])
      | none =>
        let next := reqPhase rest (i + 1) req
        (next.1, Ev.reqMW i :: next.2)

/-- The response-phase loop of `Downloader.Download` (src/downloader/
downloader.go, lines 83-88). -/
def respPhase {M : Type} : List (Middleware M) → Nat → Response M →
    ResponseMetadata → Option String × List Ev
  | [], _, _, _ => (none, [])
  | mid :: rest, i, res, meta =>
    match mid.handleResponse res meta with
    | some e => (some e, [Ev.respMW i])
    | none =>
      let next := respPhase rest (i + 1) res meta
      (next.1, Ev.respMW i :: next.2)

/-- `Downloader.Download` (src/downloader/downloader.go, lines 61-91),
paired with the log of collaborator invocations.  The client is modelled
as `Request → Except error Response` (Go's `Client.Do` contract: a
response or an error); the elapsed wall time `t2.Sub(t1)` measured around
the fetch is an external clock reading and enters as a parameter - it is
measured (and the response phase runs) only on the no-short-circuit path. -/
def download {M : Type} (mids : List (Middleware M))
    (client : Request M → Except String (Response M)) (elapsed : Int)
    (req : Request M) : Except String (Response M) × List Ev :=
  let rp := reqPhase mids 0 req
  match rp.1 with
  | Except.error e => (Except.error e, rp.2)
  | Except.ok (some res) => (Except.ok res, rp.2)
  | Except.ok none =>
    match client req with
    | Except.error e => (Except.error ("http: " ++ e), rp.2 ++ [Ev.clientDo])
    | Except.ok res =>
      let sp := respPhase mids 0 res { elapsed := elapsed }
      match sp.1 with
      | some e => (Except.error ("resp middleware: " ++ e), rp.2 ++ Ev.clientDo :: sp.2)
      | none => (Except.ok res, rp.2 ++ Ev.clientDo :: sp.2)

end DL

namespace MW

/-- `downloader.RequestMetadata` (src/unnamed/part_005, lines 11-14). -/
structure RequestMetadata where
  referer : Option URL
  attemptNo : Int
deriving DecidableEq, Repr

/-- `sync.Map.Load` over an association-list model of the map; `store`
prepends, so the most recent `Store` for a key wins. -/
def syncMapLoad {α : Type} : List (String × α) → String → Option α
  | [], _ => none
  | (k, v) :: rest, key => if k = key then some v else syncMapLoad rest key

/-- `Dedupe.HandleRequest` (src/unnamed/part_007, lines 96-110).  The set
of seen normalized urls (`sync.Map` keys) is the explicit state; purell's
`NormalizeURL(url, FlagsSafe)` is an external library and enters as the
parameter `normalizeURL`.  `LoadOrStore` is modelled as a membership test
plus insert.  Returns the new state together with the `(*Response, error)`
pair (the response component is always nil in the source). -/
def dedupeHandleRequest {M : Type} (normalizeURL : URL → String)
    (reqs : List String) (req : Request M) (meta : RequestMetadata) :
    List String × Option (Response M) × Option String :=
  if req.method ≠ "GET" then (reqs, none, none)
  else if meta.attemptNo > 0 then (reqs, none, none)
  else
    let normalized := normalizeURL req.url
    if reqs.contains normalized then
      (reqs, none, some (droppedRequest ("duplicate request: GET " ++ normalized)))
    else
      (normalized :: reqs, none, none)

/-- `middleware.AllowedDomains` (src/unnamed/part_005, lines 45-48): two
lists of compiled glob matchers; a compiled `glob.Glob` is modelled as its
hostname predicate. -/
structure AllowedDomains where
  requestDomains : List (String → Bool)
  responseDomains : List (String → Bool)

/-- `middleware.NewAllowedDomains` (src/unnamed/part_005, lines 60-74):
compiles every pattern of both lists; `glob.MustCompile(d, '.')` is an
external library and enters as the parameter `compile`. -/
def newAllowedDomains (compile : String → String → Bool)
    (forRequests forResponses : List String) : AllowedDomains :=
  { requestDomains := forRequests.map compile
    responseDomains := forResponses.map compile }

/-- The match loop shared by both `AllowedDomains` handlers:

    matched := false
    for _, domain := range domains {
      matched = domain.Match(hostname)
      if matched { break }
    }
-/
def domainsMatch : List (String → Bool) → String → Bool
  | [], _ => false
  | d :: rest, hostname => if d hostname then true else domainsMatch rest hostname

/-- `AllowedDomains.HandleRequest` (src/unnamed/part_005, lines 76-98):
empty request list allows everything; otherwise an unmatched request
hostname fails with a `DroppedRequest` error (message formatting
abbreviated to its fixed prefix plus the hostname). -/
def allowedDomainsHandleRequest {M : Type} (p : AllowedDomains) (req : Request M) :
    Option String :=
  if p.requestDomains.length = 0 then none
  else
    let hostname := req.url.hostname
    if !domainsMatch p.requestDomains hostname then
      some (droppedRequest ("allowed domains: aborting request, domain " ++
        hostname ++ " is not allowed"))
    else none

/-- `AllowedDomains.HandleResponse` (src/unnamed/part_005, lines 100-128),
translated exactly as written: the guard checks `responseDomains` for
emptiness, but the match loop iterates over `p.requestDomains`. -/
def allowedDomainsHandleResponse {M : Type} (p : AllowedDomains) (res : Response M) :
    Option String :=
  if p.responseDomains.length = 0 then none
  else
    let hostname := res.url.hostname
    if !domainsMatch p.requestDomains hostname then
      some (droppedRequest ("allowed domains: response from domain " ++
        hostname ++ " is not allowed"))
    else none

/-- `middleware.autoThrottleCfg` (src/unnamed/part_009, lines 46-51);
durations in nanoseconds. -/
structure AutoThrottleCfg where
  startDelay : Int
  minDelay : Int
  maxDelay : Int
  targetConcurrency : Int
deriving DecidableEq, Repr

/-- The per-host delay `sync.Map` of `AutoThrottle`. -/
abbrev DelayDict := List (String × Int)

/-- `AutoThrottle.getTargetDelay` (src/unnamed/part_009, lines 104-118):
load the stored delay for `req.Url.Host` (falling back to `startDelay`),
divide by `targetConcurrency` (Go integer division truncates toward zero,
`Int.tdiv`), clamp to `[minDelay, maxDelay]`. -/
def getTargetDelay {M : Type} (cfg : AutoThrottleCfg) (dict : DelayDict)
    (req : Request M) : Int :=
  let delay :=
    match syncMapLoad dict req.url.host with
    | some v => v
    | none => cfg.startDelay
  let tdelay := Int.tdiv delay cfg.targetConcurrency
  if tdelay > cfg.maxDelay then cfg.maxDelay
  else if tdelay < cfg.minDelay then cfg.minDelay
  else tdelay

/-- `AutoThrottle.HandleResponse` (src/unnamed/part_009, lines 124-130):

    if res.Status() != 200 { return }
    prevTargetDelay := a.getTargetDelay(res.Request())
    a.dict.Store(res.Url().Host, (prevTargetDelay+meta.Elapsed)/2)
-/
def autoThrottleHandleResponse {M : Type} (cfg : AutoThrottleCfg)
    (dict : DelayDict) (res : Response M) (elapsed : Int) : DelayDict :=
  if res.status ≠ 200 then dict
  else
    let prevTargetDelay := getTargetDelay cfg dict res.request
    (res.url.host, Int.tdiv (prevTargetDelay + elapsed) 2) :: dict

/-- `middleware.MetaEncoder` (src/downloader/middleware/replay_store.go,
lines 60-68); a failing `Marshal`/`Unmarshal` is `none`. -/
structure MetaEncoder (M : Type) where
  marshal : M → Option Bytes
  unmarshal : Bytes → Option M

/-- `middleware.MemoryReplayStore` (src/downloader/middleware/
replay_store.go, lines 29-58): a `sync.Map` keyed by `session + id`
holding the response pointers themselves. -/
abbrev MemStore (M : Type) := List (String × Response M)

/-- `MemoryReplayStore.Get`. -/
def memGet {M : Type} (s : MemStore M) (session id : String) : Option (Response M) :=
  syncMapLoad s (session ++ id)

/-- `MemoryReplayStore.Set`. -/
def memSet {M : Type} (s : MemStore M) (session id : String) (res : Response M) :
    MemStore M :=
  (session ++ id, res) :: s

/-- `middleware.rawResponse` (src/downloader/middleware/replay_store.go,
lines 120-127): the gob-encoded on-disk form of a response. -/
structure RawResponse (M : Type) where
  status : Int
  request : Request M
  requestMeta : List Bytes
  url : URL
  headers : Headers
  body : Bytes
deriving DecidableEq, Repr

/-- The metadata-serialization loop of `newRawResponse` (replay_store.go,
lines 142-152): marshal each element, abort on the first error, skip
elements whose encoding is empty. -/
def marshalMeta {M : Type} (menc : MetaEncoder M) : List M → Option (List Bytes)
  | [] => some []
  | e :: rest =>
    match menc.marshal e with
    | none => none
    | some b =>
      match marshalMeta menc rest with
      | none => none
      | some bs => if b.length = 0 then some bs else some (b :: bs)

/-- `middleware.newRawResponse` (replay_store.go, lines 141-162). -/
def newRawResponse {M : Type} (menc : MetaEncoder M) (r : Response M) :
    Option (RawResponse M) :=
  match marshalMeta menc r.request.meta with
  | none => none
  | some serialized =>
    some { status := r.status, request := r.request, requestMeta := serialized,
           url := r.url, headers := r.headers, body := r.body }

/-- The metadata-deserialization loop of `rawResponse.Response`
(replay_store.go, lines 131-137): unmarshal each buffer, abort on the
first error, `AddMeta` each element in order. -/
def unmarshalMeta {M : Type} (menc : MetaEncoder M) : List Bytes → Option (List M)
  | [] => some []
  | b :: rest =>
    match menc.unmarshal b with
    | none => none
    | some e =>
      match unmarshalMeta menc rest with
      | none => none
      | some es => some (e :: es)

/-- `rawResponse.Response` (replay_store.go, lines 129-139): rebuild the
response, appending each decoded metadata element to the decoded request
via `AddMeta`. -/
def rawToResponse {M : Type} (menc : MetaEncoder M) (rr : RawResponse M) :
    Option (Response M) :=
  match unmarshalMeta menc rr.requestMeta with
  | none => none
  | some metas =>
    some { request := { rr.request with meta := rr.request.meta ++ metas },
           status := rr.status, url := rr.url, headers := rr.headers,
           body := rr.body }

/-- What `encoding/gob` makes of a `rawResponse` on the wire: all exported
fields round-trip (assumed of the external codec), while the unexported
`meta []any` field of the embedded `downloader.Request` is silently
dropped - which is exactly why `rawResponse` carries the separate
`RequestMeta [][]byte`. -/
def gobWire {M : Type} (rr : RawResponse M) : RawResponse M :=
  { rr with request := { rr.request with meta := [] } }

/-- The filesystem of `FSReplayStore`, as a map from paths to file
contents; a content either decodes as the gob encoding of a `rawResponse`
(`some`), or fails to decode (`none` - e.g. the empty file that remains
when `Set` truncates the path via `os.Create` and then aborts on a
metadata marshalling error). -/
abbrev FileSys (M : Type) := List (String × Option (RawResponse M))

/-- `FSReplayStore.filepath` (replay_store.go, lines 176-180):
`filepath.Join(dir, session, fmt.Sprint(xxh3.Hash([]byte(id))))`; the
xxh3 hash is an external library and enters as the parameter `hash64`;
`filepath.Join` of clean components is `/`-concatenation. -/
def fsFilepath (hash64 : String → String) (dir session id : String) : String :=
  dir ++ "/" ++ session ++ "/" ++ hash64 id

/-- `FSReplayStore.Set` (replay_store.go, lines 227-256): `os.Create`
first creates or truncates the entry's file; only then is the
`rawResponse` built - on a metadata marshalling error a log is emitted
and the function returns, leaving the truncated (undecodable) file behind
- otherwise its gob encoding is written to the path. -/
def fsSet {M : Type} (hash64 : String → String) (menc : MetaEncoder M)
    (dir : String) (fs : FileSys M) (session id : String) (res : Response M) :
    FileSys M :=
  match newRawResponse menc res with
  | none => (fsFilepath hash64 dir session id, none) :: fs
  | some raw => (fsFilepath hash64 dir session id, some (gobWire raw)) :: fs

/-- `FSReplayStore.Get` (replay_store.go, lines 183-211): absent file, or
any gob decode error or metadata unmarshal error (both logged), yields
nil; otherwise decode the `rawResponse` and rebuild the response. -/
def fsGet {M : Type} (hash64 : String → String) (menc : MetaEncoder M)
    (dir : String) (fs : FileSys M) (session id : String) : Option (Response M) :=
  match syncMapLoad fs (fsFilepath hash64 dir session id) with
  | none => none
  | some none => none
  | some (some rr) => rawToResponse menc rr

end MW

namespace Nav

/-- `golang.org/x/net/html.ElementNode` (the `html.NodeType` enum value 3). -/
def elementNode : Nat := 3

/-- `html.Node`, restricted to the fields `Navigator.AnchorUrl` reads:
`Type`, `Data` (the tag name) and `Attr` as (key, value) pairs. -/
structure HtmlNode where
  nodeType : Nat
  data : String
  attr : List (String × String)
deriving DecidableEq, Repr

/-- The attribute loop of `Navigator.AnchorUrl` (src/navigator.go, lines
50-56): `href` starts empty and takes the value of the first `href`
attribute. -/
def firstHref : List (String × String) → String
  | [] => ""
  | (k, v) :: rest => if k = "href" then v else firstHref rest

/-- `Navigator.AnchorUrl` (src/navigator.go, lines 45-75).  `url.Parse`
and `URL.ResolveReference` are external (`net/url`) and enter as
parameters; error message formatting (which renders the node) is
abbreviated to fixed strings.

    if a.Data != "a" || a.Type != html.ElementNode { return error }
    href := first href attribute or ""
    if href == "" { return error }
    ref, err := url.Parse(href); if err != nil { return error }
    return n.currentUrl.ResolveReference(ref)
-/
def anchorUrl (parse : String → Option URL)
    (resolveReference : URL → URL → URL) (currentUrl : URL) (a : HtmlNode) :
    Except String URL :=
  if a.data ≠ "a" ∨ a.nodeType ≠ elementNode then
    Except.error ("follow anchor: given html node was not an a tag")
  else
    let href := firstHref a.attr
    if href = "" then
      Except.error ("follow anchor: could not find valid href on a tag")
    else
      match parse href with
      | none => Except.error ("follow anchor: url parse error")
      | some ref => Except.ok (resolveReference currentUrl ref)

/-- `Navigator.AnchorRequest` (src/navigator.go, lines 79-85): the anchor
url wrapped into `downloader.GETRequest`. -/
def anchorRequest (M : Type) (parse : String → Option URL)
    (resolveReference : URL → URL → URL) (currentUrl : URL) (a : HtmlNode) :
    Except String (Request M) :=
  match anchorUrl parse resolveReference currentUrl a with
  | Except.error e => Except.error e
  | Except.ok abs => Except.ok (GETRequest M abs)

end Nav

namespace Fix

-- A concrete metadata encoder over `Nat` elements that round-trips every
-- element into a non-empty encoding.
def natEncoder : MW.MetaEncoder Nat :=
  { marshal := fun n => some [n + 1],
    unmarshal := fun b => match b with | [k] => some (k - 1) | _ => none }

-- A concrete metadata encoder over `Unit` whose encodings are empty yet
-- which round-trips its only element.
def emptyEncoder : MW.MetaEncoder Unit :=
  { marshal := fun _ => some [], unmarshal := fun _ => some () }

end Fix

end Scavenge

namespace Scavenge

theorem goCopy_nil_src {α : Type} (dst : List α) : goCopy dst ([] : List α) = dst := by
  simp [goCopy]

theorem wrap64_eq_self {n : Int} (h0 : 0 ≤ n) (h1 : n < 9223372036854775808) :
    wrap64 n = n := by
  unfold wrap64
  omega

theorem retryDelay_mem_clamp {mn mx : Int} (hle : mn ≤ mx) (a j : Nat) :
    mn ≤ Sched.retryDelay mn mx a j ∧ Sched.retryDelay mn mx a j ≤ mx := by
  simp only [Sched.retryDelay]
  split_ifs <;> omega

theorem retryDelay_no_wrap {mn mx : Int} (a j : Nat) (ha : a ≤ 32) (hj : j < 2 ^ a) :
    Sched.retryDelay mn mx a j =
      (if 1000000000 * ((2 : Int) ^ a + j) < mn then mn
       else if 1000000000 * ((2 : Int) ^ a + j) > mx then mx
       else 1000000000 * ((2 : Int) ^ a + j)) := by
  have hpow : (2 : Int) ^ a ≤ 2 ^ 32 := pow_le_pow_right₀ (by norm_num) ha
  have hjle : (j : Int) < 2 ^ a := by exact_mod_cast hj
  have hj0 : (0 : Int) ≤ (j : Int) := Int.natCast_nonneg j
  have hp0 : (0 : Int) < 2 ^ a := pow_pos (by norm_num) a
  have hbound : 1000000000 * ((2 : Int) ^ a + j) < 9223372036854775808 := by
    have : (2 : Int) ^ a + j < 2 ^ 33 := by
      have : (2 : Int) ^ a + j < 2 ^ a + 2 ^ a := by omega
      have h2 : (2 : Int) ^ a + 2 ^ a ≤ 2 ^ 32 + 2 ^ 32 := by omega
      norm_num at h2 ⊢
      omega
    nlinarith
  have hnn : (0 : Int) ≤ 1000000000 * ((2 : Int) ^ a + j) := by positivity
  simp only [Sched.retryDelay]
  rw [wrap64_eq_self hnn hbound]

theorem charsLeading_self_append (m b : List Char) :
    charsLeading m (m ++ b) = true := by
  induction m with
  | nil => rfl
  | cons c cs ih => simp [charsLeading, ih]

theorem charsContains_nil_sub : ∀ l : List Char, charsContains l [] = true
  | [] => rfl
  | _ :: _ => by simp [charsContains, charsLeading]

theorem charsContains_middle (a m b : List Char) :
    charsContains (a ++ (m ++ b)) m = true := by
  induction a with
  | nil =>
    match m with
    | [] => simpa using charsContains_nil_sub b
    | c :: cs =>
      show (charsLeading (c :: cs) (c :: (cs ++ b)) ||
        charsContains (cs ++ b) (c :: cs)) = true
      rw [show charsLeading (c :: cs) (c :: (cs ++ b)) = true from
        charsLeading_self_append (c :: cs) b, Bool.true_or]
  | cons x rest ih =>
    show (charsLeading m (x :: (rest ++ (m ++ b))) ||
      charsContains (rest ++ (m ++ b)) m) = true
    rw [ih, Bool.or_true]

theorem strContains_wrapped_dropped (pre reason : String) :
    strContains (pre ++ droppedRequest reason) ("dropped request:") = true := by
  show charsContains (pre ++ ("dropped request: " ++ reason)).data
    ("dropped request:").data = true
  rw [String.data_append, String.data_append]
  have hsp : ("dropped request: ").data = ("dropped request:").data ++ [' '] := rfl
  rw [hsp, List.append_assoc]
  exact charsContains_middle _ _ _

theorem reqPhase_short_circuit {M : Type} :
    ∀ (i : Nat) (mids : List (DL.Middleware M)) (req : Request M)
      (mid : DL.Middleware M) (res : Response M) (i0 : Nat),
      (∀ j m, j < i → mids[j]? = some m → m.handleRequest req = (none, none)) →
      mids[i]? = some mid →
      mid.handleRequest req = (some res, none) →
      DL.reqPhase mids i0 req =
        (Except.ok (some res),
          (List.range (i + 1)).map (fun j => DL.Ev.reqMW (i0 + j))) := by
  intro i
  induction i with
  | zero =>
    intro mids req mid res i0 _ h0 hs
    match mids with
    | [] => simp at h0
    | m :: rest =>
      simp only [List.getElem?_cons_zero, Option.some.injEq] at h0
      subst h0
      have hr1 : List.range 1 = [0] := rfl
      simp [DL.reqPhase, hs, hr1]
  | succ k ih =>
    intro mids req mid res i0 hb hk hs
    match mids with
    | [] => simp at hk
    | m :: rest =>
      have h0 : m.handleRequest req = (none, none) :=
        hb 0 m (Nat.succ_pos k) (by simp)
      simp only [List.getElem?_cons_succ] at hk
      have hb' : ∀ j m', j < k → rest[j]? = some m' →
          m'.handleRequest req = (none, none) := by
        intro j m' hj hjm
        exact hb (j + 1) m' (by omega) (by simpa using hjm)
      have hrec := ih rest req mid res (i0 + 1) hb' hk hs
      simp only [DL.reqPhase, h0, hrec]
      refine Prod.ext rfl ?_
      show DL.Ev.reqMW i0 :: (List.range (k + 1)).map (fun j => DL.Ev.reqMW (i0 + 1 + j)) =
        (List.range (k + 1 + 1)).map (fun j => DL.Ev.reqMW (i0 + j))
      conv_rhs => rw [List.range_succ_eq_map]
      simp only [List.map_cons, List.map_map, Nat.add_zero]
      refine congrArg (List.cons (DL.Ev.reqMW i0)) ?_
      apply List.map_congr_left
      intro j _
      simp only [Function.comp_apply]
      congr 1
      omega

theorem handlingEvents_sum (h : Sched.Handling) : (Sched.handlingEvents h).sum = -1 := by
  induction h with
  | success => rfl
  | dropped => rfl
  | failThenCancelled => rfl
  | failThenPanicked => rfl
  | failThenRefire next ih =>
    show ((1 : Int) :: (-1) :: Sched.handlingEvents next).sum = -1
    simp [List.sum_cons, ih]

theorem handlingEvents_take (h : Sched.Handling) (n : Nat) :
    -1 ≤ ((Sched.handlingEvents h).take n).sum := by
  induction h generalizing n with
  | success => match n with
    | 0 => norm_num
    | _ + 1 => simp [Sched.handlingEvents]
  | dropped => match n with
    | 0 => norm_num
    | _ + 1 => simp [Sched.handlingEvents]
  | failThenCancelled => match n with
    | 0 => norm_num
    | 1 => simp [Sched.handlingEvents]
    | 2 => simp [Sched.handlingEvents]
    | _ + 3 => simp [Sched.handlingEvents]
  | failThenPanicked => match n with
    | 0 => norm_num
    | 1 => simp [Sched.handlingEvents]
    | 2 => simp [Sched.handlingEvents]
    | _ + 3 => simp [Sched.handlingEvents]
  | failThenRefire next ih =>
    match n with
    | 0 => norm_num
    | 1 => simp [Sched.handlingEvents]
    | m + 2 =>
      show -1 ≤ (((1 : Int) :: (-1) :: Sched.handlingEvents next).take (m + 2)).sum
      simp only [List.take_succ_cons, List.sum_cons]
      have := ih m
      omega

theorem handlingEvents_mem (h : Sched.Handling) :
    ∀ e ∈ Sched.handlingEvents h, e = 1 ∨ e = -1 := by
  induction h with
  | success => intro e he; simp [Sched.handlingEvents] at he; omega
  | dropped => intro e he; simp [Sched.handlingEvents] at he; omega
  | failThenCancelled => intro e he; simp [Sched.handlingEvents] at he; rcases he with h | h <;> omega
  | failThenPanicked => intro e he; simp [Sched.handlingEvents] at he; rcases he with h | h <;> omega
  | failThenRefire next ih =>
    intro e he
    simp only [Sched.handlingEvents, List.mem_cons] at he
    rcases he with h | h | h
    · left; exact h
    · right; exact h
    · exact ih e h

theorem jobEvents_sum (j : Sched.JobRun) : (Sched.jobEvents j).sum = 0 := by
  cases j with
  | handled h =>
    show ((1 : Int) :: Sched.handlingEvents h).sum = 0
    simp [List.sum_cons, handlingEvents_sum h]
  | sendPanicked => rfl

theorem jobEvents_take (j : Sched.JobRun) (n : Nat) :
    0 ≤ ((Sched.jobEvents j).take n).sum := by
  cases j with
  | handled h =>
    match n with
    | 0 => norm_num
    | m + 1 =>
      show 0 ≤ (((1 : Int) :: Sched.handlingEvents h).take (m + 1)).sum
      simp only [List.take_succ_cons, List.sum_cons]
      have := handlingEvents_take h m
      omega
  | sendPanicked =>
    match n with
    | 0 => norm_num
    | 1 => simp [Sched.jobEvents]
    | _ + 2 => simp [Sched.jobEvents]

theorem jobEvents_head (j : Sched.JobRun) : (Sched.jobEvents j).head? = some 1 := by
  cases j <;> rfl

theorem jobEvents_mem (j : Sched.JobRun) :
    ∀ e ∈ Sched.jobEvents j, e = 1 ∨ e = -1 := by
  cases j with
  | handled h =>
    intro e he
    simp only [Sched.jobEvents, List.mem_cons] at he
    rcases he with h1 | h1
    · left; exact h1
    · exact handlingEvents_mem h e h1
  | sendPanicked => intro e he; simp [Sched.jobEvents] at he; rcases he with h | h <;> omega

theorem suffixOk_nil {d : Int} (h : Sched.SuffixOk [] d) : d = 0 := by
  obtain ⟨h0, hsum, _⟩ := h
  simp at hsum
  omega

theorem suffixOk_cons {e : Int} {t : List Int} {d : Int}
    (h : Sched.SuffixOk (e :: t) d) : 0 ≤ d + e ∧ Sched.SuffixOk t (d + e) := by
  obtain ⟨h0, hsum, htake⟩ := h
  have h1 : -d ≤ e := by
    have := htake 1
    simpa using this
  have hsum' : t.sum = -(d + e) := by
    simp only [List.sum_cons] at hsum
    omega
  refine ⟨by omega, by omega, hsum', ?_⟩
  intro n
  have := htake (n + 1)
  simp only [List.take_succ_cons, List.sum_cons] at this
  omega

theorem interleaving_inv {ts : List (List Int)} {out : List Int}
    (hI : Sched.Interleaving ts out) :
    ∀ D : Nat → Int,
      (∀ i, i < ts.length → Sched.SuffixOk (ts[i]?.getD []) (D i)) →
      out.sum = -(∑ i ∈ Finset.range ts.length, D i) ∧
        ∀ n, -(∑ i ∈ Finset.range ts.length, D i) ≤ (out.take n).sum := by
  induction hI with
  | done ts hts =>
    intro D hD
    have hzero : ∀ i ∈ Finset.range ts.length, D i = 0 := by
      intro i hi
      rw [Finset.mem_range] at hi
      have hsk := hD i hi
      have hcell : ts[i]? = some ts[i] := List.getElem?_eq_getElem hi
      have hmem : ts[i] ∈ ts := List.getElem_mem hi
      have hnil : ts[i] = [] := hts _ hmem
      rw [hcell, hnil] at hsk
      exact suffixOk_nil hsk
    rw [Finset.sum_eq_zero hzero]
    simp
  | step ts i e rest out hget hI2 ih =>
    intro D hD
    have hlen : i < ts.length := by
      by_contra hge
      rw [List.getElem?_eq_none (by omega)] at hget
      exact Option.noConfusion hget
    have hsk : Sched.SuffixOk (e :: rest) (D i) := by
      have := hD i hlen
      rw [hget] at this
      exact this
    obtain ⟨hde, hsk'⟩ := suffixOk_cons hsk
    have hinv' : ∀ k, k < (ts.set i rest).length →
        Sched.SuffixOk ((ts.set i rest)[k]?.getD []) (Function.update D i (D i + e) k) := by
      intro k hk
      rw [List.length_set] at hk
      by_cases hki : k = i
      · subst hki
        have hcell : (ts.set k rest)[k]? = some rest := List.getElem?_set_self hk
        rw [hcell, Function.update_same]
        exact hsk'
      · have hcell : (ts.set i rest)[k]? = ts[k]? := List.getElem?_set_ne (by omega)
        rw [hcell, Function.update_noteq hki]
        exact hD k hk
    obtain ⟨hsum', htake'⟩ := ih (Function.update D i (D i + e)) hinv'
    rw [List.length_set] at hsum' htake'
    have hsplit : ∑ k ∈ Finset.range ts.length, D k =
        (∑ k ∈ (Finset.range ts.length).erase i, D k) + D i :=
      (Finset.sum_erase_add (Finset.range ts.length) D (Finset.mem_range.mpr hlen)).symm
    rw [Finset.erase_eq] at hsplit
    have hsumD' : ∑ k ∈ Finset.range ts.length, Function.update D i (D i + e) k =
        (∑ k ∈ Finset.range ts.length, D k) + e := by
      rw [Finset.sum_update_of_mem (Finset.mem_range.mpr hlen)]
      omega
    have hnneg : 0 ≤ ∑ k ∈ Finset.range ts.length, D k := by
      apply Finset.sum_nonneg
      intro k hk
      exact (hD k (Finset.mem_range.mp hk)).1
    constructor
    · simp only [List.sum_cons, hsum', hsumD']
      ring
    · intro n
      match n with
      | 0 => simpa using hnneg
      | m + 1 =>
        have hm := htake' m
        simp only [List.take_succ_cons, List.sum_cons]
        omega

theorem meta_roundtrip {M : Type} (menc : MW.MetaEncoder M) :
    ∀ l : List M,
      (∀ e ∈ l, ∃ b, menc.marshal e = some b ∧ b ≠ [] ∧ menc.unmarshal b = some e) →
      ∃ bs, MW.marshalMeta menc l = some bs ∧ MW.unmarshalMeta menc bs = some l := by
  intro l
  induction l with
  | nil => intro _; exact ⟨[], rfl, rfl⟩
  | cons e rest ih =>
    intro hall
    obtain ⟨b, hb, hbne, hub⟩ := hall e (List.mem_cons_self e rest)
    obtain ⟨bs, hbs, hubs⟩ := ih (fun x hx => hall x (List.mem_cons_of_mem e hx))
    refine ⟨b :: bs, ?_, ?_⟩
    · simp only [MW.marshalMeta, hb, hbs]
      have hlen : ¬ b.length = 0 := by
        cases b with
        | nil => exact absurd rfl hbne
        | cons _ _ => simp
      rw [if_neg hlen]
    · simp only [MW.unmarshalMeta, hub, hubs]

theorem fsSet_marshal_failure_truncates {M : Type} (hash64 : String → String)
    (menc : MW.MetaEncoder M) (dir : String) (fs : MW.FileSys M)
    (session id : String) (res : Response M)
    (hfail : MW.newRawResponse menc res = none) :
    MW.fsGet hash64 menc dir (MW.fsSet hash64 menc dir fs session id res)
      session id = none := by
  simp [MW.fsGet, MW.fsSet, hfail, MW.syncMapLoad]

theorem firstHref_absent : ∀ attr : List (String × String),
    (∀ p ∈ attr, p.1 ≠ "href") → Nav.firstHref attr = "" := by
  intro attr
  induction attr with
  | nil => intro _; rfl
  | cons p rest ih =>
    intro hall
    match p with
    | (k, v) =>
      have hk : k ≠ "href" := hall (k, v) (List.mem_cons_self _ _)
      show (if k = "href" then v else Nav.firstHref rest) = ""
      rw [if_neg hk]
      exact ih (fun q hq => hall q (List.mem_cons_of_mem _ hq))

end Scavenge

open Scavenge in
/-- C2: whenever the request-phase middleware at position `i` is reached
during `Download` (all earlier ones returned `(nil, nil)`) and returns a
non-nil response with a nil error, `Download` returns exactly that
response, the invocation log is exactly the request-phase middlewares
`0..i` - so no later request-phase middleware runs, `Client.Do` is never
invoked (hence no elapsed time is measured), and no response-phase
middleware runs on that request. -/
theorem c2_request_middleware_short_circuit {M : Type}
    (mids : List (DL.Middleware M))
    (client : Request M → Except String (Response M)) (elapsed : Int)
    (req : Request M) (i : Nat) (mid : DL.Middleware M) (res : Response M)
    (hbefore : ∀ j m, j < i → mids[j]? = some m → m.handleRequest req = (none, none))
    (hmid : mids[i]? = some mid)
    (hshort : mid.handleRequest req = (some res, none)) :
    (DL.download mids client elapsed req).1 = Except.ok res ∧
      (DL.download mids client elapsed req).2 =
        (List.range (i + 1)).map DL.Ev.reqMW ∧
      DL.Ev.clientDo ∉ (DL.download mids client elapsed req).2 ∧
      (∀ j, DL.Ev.respMW j ∉ (DL.download mids client elapsed req).2) ∧
      (∀ j, i < j → DL.Ev.reqMW j ∉ (DL.download mids client elapsed req).2) := by
  have hrp := reqPhase_short_circuit i mids req mid res 0 hbefore hmid hshort
  have hmap : (List.range (i + 1)).map (fun j => DL.Ev.reqMW (0 + j)) =
      (List.range (i + 1)).map DL.Ev.reqMW := by
    apply List.map_congr_left
    intro j _
    simp
  have hdl : DL.download mids client elapsed req =
      (Except.ok res, (List.range (i + 1)).map DL.Ev.reqMW) := by
    simp only [DL.download, hrp, hmap]
  rw [hdl]
  refine ⟨rfl, rfl, ?_, ?_, ?_⟩
  · simp
  · intro j
    simp
  · intro j hij
    simp only [List.mem_map, List.mem_range, not_exists]
    rintro x ⟨hx, hxe⟩
    injection hxe with h
    omega

open Scavenge in
/-- C2 witness: a one-middleware chain whose request phase returns a
response short-circuits the whole pipeline. -/
theorem c2_request_middleware_short_circuit_witness :
    (DL.download (M := Unit)
        [{ handleRequest := fun r =>
             (some { request := r, status := 200, url := r.url, headers := [], body := [] },
              none),
           handleResponse := fun _ _ => none }]
        (fun _ => Except.error ("unused")) 7
        { method := "GET", url := { host := "h", hostname := "h" },
          headers := [], body := [], meta := [] }).1 =
      Except.ok
        { request :=
            { method := "GET", url := { host := "h", hostname := "h" },
              headers := [], body := [], meta := [] },
          status := 200, url := { host := "h", hostname := "h" },
          headers := [], body := [] } :=
  (c2_request_middleware_short_circuit _ _ 7 _ 0 _ _
    (fun j _ hj _ => absurd hj (Nat.not_lt_zero j)) rfl rfl).1

open Scavenge in
/-- C3: for a request job whose download returned an error classified
`Dropped` (the scheduler's classification is
`strings.Contains(err, "dropped request:")`, satisfied by every wrapping
of `DroppedRequest` - last conjunct), `handleRequest` only logs at info:
no retry is scheduled and `OnRequestFail` is not invoked.  For every other
download error a retry is scheduled and, when configured, `OnRequestFail`
is invoked.  An error from the spider's `HandleResponse` likewise
schedules a retry. -/
theorem c3_dropped_no_retry_classification {M : Type}
    (reqFailSet spiderFailSet : Bool)
    (dlResult : Except String (Response M))
    (spider : Response M → Option String) :
    (∀ e, dlResult = Except.error e →
        strContains e ("dropped request:") = true →
        Sched.handleRequest reqFailSet spiderFailSet dlResult spider =
          [Sched.Act.logInfoDownload, Sched.Act.logInfoDropped]) ∧
    (∀ e, dlResult = Except.error e →
        strContains e ("dropped request:") = false →
        Sched.Act.retryScheduled ∈
            Sched.handleRequest reqFailSet spiderFailSet dlResult spider ∧
          (reqFailSet = true →
            Sched.Act.reqFailHandler ∈
              Sched.handleRequest reqFailSet spiderFailSet dlResult spider)) ∧
    (∀ res e, dlResult = Except.ok res → spider res = some e →
        Sched.Act.retryScheduled ∈
          Sched.handleRequest reqFailSet spiderFailSet dlResult spider) ∧
    (∀ pre reason,
        strContains (pre ++ droppedRequest reason) ("dropped request:") = true) := by
  refine ⟨?_, ?_, ?_, fun pre reason => strContains_wrapped_dropped pre reason⟩
  · intro e he hc
    subst he
    simp [Sched.handleRequest, hc]
  · intro e he hc
    subst he
    cases reqFailSet <;> simp [Sched.handleRequest, hc]
  · intro res e he hsp
    subst he
    cases spiderFailSet <;> simp [Sched.handleRequest, hsp]

open Scavenge in
/-- C3 witness: a download error wrapped by `DroppedRequest` leads to the
info log only, and a plain transport error leads to the fail handler plus
a scheduled retry. -/
theorem c3_dropped_no_retry_classification_witness :
    Sched.handleRequest (M := Unit) true true
        (Except.error (droppedRequest ("boom"))) (fun _ => none) =
      [Sched.Act.logInfoDownload, Sched.Act.logInfoDropped] :=
  (c3_dropped_no_retry_classification true true
      (Except.error (droppedRequest ("boom"))) (fun _ => none)).1
    (droppedRequest ("boom")) rfl (by decide)

/-- C4 counterexample: with the default retry-delay bounds
(`minRetryDelay = 1s = 10^9 ns`, `maxRetryDelay = 1h = 3.6*10^12 ns`), the
jitter draw 0 is possible at every attempt, yet the delay computed at
attempt 33 (clamped to the max, since `2^33 s` in nanoseconds is a huge
positive int64) strictly exceeds the delay computed at attempt 34 (where
`10^9 * 2^34` wraps around int64 to a negative value, so the delay clamps
to the min): `retryDelay` is not monotonic non-decreasing in the attempt
number. -/
theorem c4_counterexample :
    (33 : Nat) < 34 ∧ (0 : Nat) < 2 ^ 33 ∧ (0 : Nat) < 2 ^ 34 ∧
      Scavenge.Sched.retryDelay 1000000000 3600000000000 33 0 = 3600000000000 ∧
      Scavenge.Sched.retryDelay 1000000000 3600000000000 34 0 = 1000000000 ∧
      ¬ Scavenge.Sched.retryDelay 1000000000 3600000000000 33 0 ≤
          Scavenge.Sched.retryDelay 1000000000 3600000000000 34 0 := by
  refine ⟨by norm_num, by positivity, by positivity, ?_, ?_, by decide⟩ <;> decide

/-- C4 (amended): provided `minRetryDelay ≤ maxRetryDelay` (enforced by
`WithRetryDelayBounds` and the defaults), for every attempt `a ≤ 62` (the
range where `int(math.Pow(2, a))` is exact) and every jitter draw
`j < 2^a`, the retry delay lies in `[minRetryDelay, maxRetryDelay]`; and
the delay is monotonic non-decreasing in the attempt number as long as the
nanosecond product cannot overflow int64, i.e. for attempts `a < a' ≤ 32`
and all jitter draws. -/
theorem c4_retry_delay_clamped_and_monotonic (mn mx : Int) (a a' j j' : Nat)
    (hmm : mn ≤ mx) :
    (a ≤ 62 → j < 2 ^ a →
      mn ≤ Scavenge.Sched.retryDelay mn mx a j ∧
        Scavenge.Sched.retryDelay mn mx a j ≤ mx) ∧
    (a < a' → a' ≤ 32 → j < 2 ^ a → j' < 2 ^ a' →
      Scavenge.Sched.retryDelay mn mx a j ≤ Scavenge.Sched.retryDelay mn mx a' j') := by
  constructor
  · intro _ _
    exact Scavenge.retryDelay_mem_clamp hmm a j
  · intro haa ha' hj hj'
    rw [Scavenge.retryDelay_no_wrap a j (by omega) hj,
      Scavenge.retryDelay_no_wrap a' j' ha' hj']
    have hja : (j : Int) < 2 ^ a := by exact_mod_cast hj
    have hj'0 : (0 : Int) ≤ (j' : Int) := Int.natCast_nonneg j'
    have hstep : (2 : Int) ^ (a + 1) ≤ 2 ^ a' :=
      pow_le_pow_right₀ (by norm_num) (by omega)
    have hdouble : (2 : Int) ^ a + j < 2 ^ (a + 1) := by
      rw [pow_succ]
      omega
    have hu : 1000000000 * ((2 : Int) ^ a + j) ≤ 1000000000 * ((2 : Int) ^ a' + j') := by
      have : (2 : Int) ^ a + j ≤ 2 ^ a' + j' := by omega
      omega
    split_ifs <;> omega

/-- C10: for every item `i` (over any element type), `Item.Clone` (latest
items package) and `Item.Entries` both return the empty (nil) slice rather
than a copy of `i`: the built-in `copy` is invoked with `i` as destination
and the freshly declared empty slice as source, so nothing is copied
(`goCopy i [] = i`, the destination is unchanged) and the empty slice is
returned. -/
theorem c10_clone_entries_empty {M : Type} (i : Scavenge.Items.Item M) :
    Scavenge.Items.Clone i = [] ∧ Scavenge.Items.Entries i = [] ∧
      Scavenge.goCopy i ([] : List M) = i := by
  refine ⟨rfl, rfl, ?_⟩
  exact Scavenge.goCopy_nil_src i

open Scavenge in
/-- C4 witness: the amended bounds and monotonicity at concrete inputs
(default delay bounds, attempts 1 < 2, jitters 0 and 1). -/
theorem c4_retry_delay_clamped_and_monotonic_witness :
    ((1000000000 : Int) ≤ Sched.retryDelay 1000000000 3600000000000 1 0 ∧
        Sched.retryDelay 1000000000 3600000000000 1 0 ≤ 3600000000000) ∧
      Sched.retryDelay 1000000000 3600000000000 1 0 ≤
        Sched.retryDelay 1000000000 3600000000000 2 1 :=
  ⟨(c4_retry_delay_clamped_and_monotonic 1000000000 3600000000000 1 2 0 1
      (by norm_num)).1 (by norm_num) (by norm_num),
    (c4_retry_delay_clamped_and_monotonic 1000000000 3600000000000 1 2 0 1
      (by norm_num)).2 (by norm_num) (by norm_num) (by norm_num) (by norm_num)⟩

open Scavenge in
/-- C5 evidence of the code bug: `AllowedDomains` built from request
patterns `["a.com"]` and response patterns `["b.com"]` (literal glob
matchers).  A response from hostname `b.com` matches the response-domain
list, yet `HandleResponse` returns a `DroppedRequest` error; a response
from `a.com` matches no response-domain pattern, yet it is allowed - the
match loop reads `p.requestDomains` while only the emptiness guard reads
`p.responseDomains`. -/
theorem c5_response_check_uses_request_domains :
    (MW.domainsMatch
        (MW.newAllowedDomains (fun pat host => pat == host)
          (["a.com"]) (["b.com"])).responseDomains ("b.com") = true) ∧
      (MW.allowedDomainsHandleResponse
          (MW.newAllowedDomains (fun pat host => pat == host)
            (["a.com"]) (["b.com"]))
          (Fix.res ("b.com") 200) =
        some (droppedRequest
          ("allowed domains: response from domain b.com is not allowed"))) ∧
      (MW.domainsMatch
        (MW.newAllowedDomains (fun pat host => pat == host)
          (["a.com"]) (["b.com"])).responseDomains ("a.com") = false) ∧
      (MW.allowedDomainsHandleResponse
          (MW.newAllowedDomains (fun pat host => pat == host)
            (["a.com"]) (["b.com"]))
          (Fix.res ("a.com") 200) = none) :=
  ⟨rfl, rfl, rfl, rfl⟩

open Scavenge in
/-- C6: `Dedupe.HandleRequest` passes non-GET requests and retries
(`AttemptNo > 0`) through with the seen-set unchanged; a first-attempt GET
whose normalized url is already in the set fails with a `DroppedRequest`
error (set unchanged); a fresh one is inserted and passes.  Consequently
two first-attempt GET requests whose urls normalize to equal strings yield
exactly one fetch: the first passes, the second fails with a Dropped
error. -/
theorem c6_dedupe_first_attempt_get {M : Type} (normalizeURL : Scavenge.URL → String)
    (reqs : List String) (req req2 : Request M)
    (meta meta2 : MW.RequestMetadata) :
    (req.method ≠ "GET" →
      MW.dedupeHandleRequest normalizeURL reqs req meta = (reqs, none, none)) ∧
    (meta.attemptNo > 0 →
      MW.dedupeHandleRequest normalizeURL reqs req meta = (reqs, none, none)) ∧
    (req.method = "GET" → meta.attemptNo = 0 → normalizeURL req.url ∈ reqs →
      MW.dedupeHandleRequest normalizeURL reqs req meta =
        (reqs, none,
          some (droppedRequest ("duplicate request: GET " ++ normalizeURL req.url)))) ∧
    (req.method = "GET" → meta.attemptNo = 0 → normalizeURL req.url ∉ reqs →
      MW.dedupeHandleRequest normalizeURL reqs req meta =
        (normalizeURL req.url :: reqs, none, none)) ∧
    (req.method = "GET" → req2.method = "GET" →
      meta.attemptNo = 0 → meta2.attemptNo = 0 →
      normalizeURL req2.url = normalizeURL req.url →
      normalizeURL req.url ∉ reqs →
      (MW.dedupeHandleRequest normalizeURL reqs req meta).2.2 = none ∧
        (MW.dedupeHandleRequest normalizeURL
            (MW.dedupeHandleRequest normalizeURL reqs req meta).1 req2 meta2).2.2 =
          some (droppedRequest ("duplicate request: GET " ++ normalizeURL req2.url))) := by
  have hpass : req.method = "GET" → meta.attemptNo = 0 → normalizeURL req.url ∉ reqs →
      MW.dedupeHandleRequest normalizeURL reqs req meta =
        (normalizeURL req.url :: reqs, none, none) := by
    intro hm ha hmem
    simp only [MW.dedupeHandleRequest, hm, ha]
    simp [hmem]
  refine ⟨?_, ?_, ?_, hpass, ?_⟩
  · intro hm
    simp [MW.dedupeHandleRequest, hm]
  · intro ha
    by_cases hm : req.method = "GET"
    · simp only [MW.dedupeHandleRequest, hm]
      simp [show ¬ meta.attemptNo ≤ 0 by omega]
    · simp [MW.dedupeHandleRequest, hm]
  · intro hm ha hmem
    simp only [MW.dedupeHandleRequest, hm, ha]
    simp [hmem]
  · intro hm hm2 ha ha2 hnorm hmem
    rw [hpass hm ha hmem]
    constructor
    · rfl
    · simp only [MW.dedupeHandleRequest, hm2, ha2]
      simp [hnorm]

open Scavenge in
/-- C6 witness: two first-attempt GET requests to hosts that normalize
equally, against an empty seen-set; exactly the second is dropped. -/
theorem c6_dedupe_first_attempt_get_witness :
    (MW.dedupeHandleRequest (fun u => u.host) [] (Fix.req ("x"))
        { referer := none, attemptNo := 0 }).2.2 = none ∧
      (MW.dedupeHandleRequest (fun u => u.host)
          (MW.dedupeHandleRequest (fun u => u.host) [] (Fix.req ("x"))
            { referer := none, attemptNo := 0 }).1
          (Fix.req ("x")) { referer := none, attemptNo := 0 }).2.2 =
        some (droppedRequest ("duplicate request: GET " ++ (Fix.req ("x")).url.host)) :=
  (c6_dedupe_first_attempt_get (fun u => u.host) [] (Fix.req ("x")) (Fix.req ("x"))
      { referer := none, attemptNo := 0 } { referer := none, attemptNo := 0 }).2.2.2.2
    rfl rfl rfl rfl rfl (by simp)

open Scavenge in
/-- C7 counterexample: a 200 response with `startDelay = 4s`,
`targetConcurrency = 2`, `elapsed = 2s` over an empty delay map.  The
claimed update `(delay[host] + elapsed) / 2 = (4s + 2s) / 2 = 3s` differs
from what the code stores, `(getTargetDelay + elapsed) / 2 =
(4s/2 + 2s) / 2 = 2s`: `HandleResponse` feeds the clamped,
concurrency-divided target delay back into the average, not the stored
per-host delay. -/
theorem c7_counterexample :
    MW.syncMapLoad
        (MW.autoThrottleHandleResponse
          { startDelay := 4000000000, minDelay := 0, maxDelay := 60000000000,
            targetConcurrency := 2 }
          [] (Fix.res ("h") 200) 2000000000) ("h") = some 2000000000 ∧
      Int.tdiv (4000000000 + 2000000000) 2 = 3000000000 ∧
      ¬ MW.syncMapLoad
          (MW.autoThrottleHandleResponse
            { startDelay := 4000000000, minDelay := 0, maxDelay := 60000000000,
              targetConcurrency := 2 }
            [] (Fix.res ("h") 200) 2000000000) ("h") =
        some (Int.tdiv (4000000000 + 2000000000) 2) := by
  refine ⟨by decide, by decide, by decide⟩

open Scavenge in
/-- C7 (amended): for a response with status 200, `AutoThrottle`'s
`HandleResponse` stores, under the response url's `Host`, the value
`(getTargetDelay(request) + elapsed) / 2` - where `getTargetDelay` is the
stored delay of the request url's host (initially `startDelay`), divided
by `targetConcurrency` and clamped to `[minDelay, maxDelay]`; for every
other status the per-host delay map is left unchanged. -/
theorem c7_autothrottle_update_characterization {M : Type}
    (cfg : MW.AutoThrottleCfg) (dict : MW.DelayDict) (res : Response M)
    (elapsed : Int) (h : String) :
    MW.syncMapLoad (MW.autoThrottleHandleResponse cfg dict res elapsed) h =
      if res.status = 200 ∧ h = res.url.host then
        some (Int.tdiv (MW.getTargetDelay cfg dict res.request + elapsed) 2)
      else MW.syncMapLoad dict h := by
  by_cases h200 : res.status = 200
  · simp only [MW.autoThrottleHandleResponse, h200]
    rw [if_neg (by simp)]
    by_cases hh : h = res.url.host
    · subst hh
      simp [MW.syncMapLoad, h200]
    · rw [if_neg (by simp [h200, hh])]
      show (if res.url.host = h then _ else MW.syncMapLoad dict h) = MW.syncMapLoad dict h
      rw [if_neg (fun hc => hh hc.symm)]
  · simp only [MW.autoThrottleHandleResponse]
    rw [if_pos (by simp [h200]), if_neg (by simp [h200])]

open Scavenge in
/-- C8 (amended): after `Set(session, id, r)`, a subsequent
`Get(session, id)` returns a response equal to the original on status,
final url, headers, body and request metadata - for the in-memory store
unconditionally (it stores the response pointer itself, no encoder is
involved), and for the filesystem store provided the configured metadata
encoder round-trips each metadata element of `r` into a *non-empty*
encoding (elements that marshal to empty bytes are skipped by
`newRawResponse` and would be lost). -/
theorem c8_replay_roundtrip {M : Type} (menc : MW.MetaEncoder M)
    (hash64 : String → String) (dir session id : String)
    (mem : MW.MemStore M) (fs : MW.FileSys M) (r : Response M) :
    MW.memGet (MW.memSet mem session id r) session id = some r ∧
      ((∀ e ∈ r.request.meta,
          ∃ b, menc.marshal e = some b ∧ b ≠ [] ∧ menc.unmarshal b = some e) →
        MW.fsGet hash64 menc dir (MW.fsSet hash64 menc dir fs session id r)
          session id = some r) := by
  constructor
  · simp [MW.memGet, MW.memSet, MW.syncMapLoad]
  · intro hmeta
    obtain ⟨bs, hbs, hubs⟩ := meta_roundtrip menc r.request.meta hmeta
    have hraw : MW.newRawResponse menc r = some
        { status := r.status, request := r.request, requestMeta := bs,
          url := r.url, headers := r.headers, body := r.body } := by
      simp [MW.newRawResponse, hbs]
    simp [MW.fsGet, MW.fsSet, hraw, MW.gobWire, MW.syncMapLoad, MW.rawToResponse, hubs]

open Scavenge in
/-- C8 witness: a concrete encoder (`marshal n = [n + 1]`,
`unmarshal [k] = [k - 1]`) round-trips the metadata bag `[5]` through the
filesystem store. -/
theorem c8_replay_roundtrip_witness :
    MW.fsGet (fun _ => "f") Fix.natEncoder ("d")
        (MW.fsSet (fun _ => "f") Fix.natEncoder ("d") ([] : MW.FileSys Nat)
          ("s") ("i") (Fix.resM ("h") 200 [5]))
        ("s") ("i") =
      some (Fix.resM ("h") 200 [5]) :=
  (c8_replay_roundtrip Fix.natEncoder (fun _ => "f") ("d") ("s") ("i") [] []
      (Fix.resM ("h") 200 [5])).2
    (by
      intro e he
      simp only [Fix.resM, Fix.reqM, List.mem_singleton] at he
      subst he
      exact ⟨[6], rfl, by simp, rfl⟩)

open Scavenge in
/-- C8 counterexample: an encoder satisfying the claim's round-trip
assumption (`Unmarshal (Marshal e) = e` for the lone element) but whose
encodings are empty loses the metadata through the filesystem store: the
element is skipped on `Set`, so `Get` returns a response with empty
request metadata. -/
theorem c8_counterexample :
    (Fix.emptyEncoder.unmarshal ((Fix.emptyEncoder.marshal ()).getD []) = some ()) ∧
      (MW.fsGet (fun _ => "f") Fix.emptyEncoder ("d")
          (MW.fsSet (fun _ => "f") Fix.emptyEncoder ("d")
            ([] : MW.FileSys Unit) ("s") ("i") (Fix.resM ("h") 200 [()]))
          ("s") ("i")).map (fun res => res.request.meta) = some [] ∧
      (Fix.resM ("h") 200 [()]).request.meta = [()] ∧
      ([] : List Unit) ≠ [()] := by
  refine ⟨rfl, by decide, rfl, by decide⟩

open Scavenge in
/-- C9 (amended): for an `<a>` element node whose first `href` attribute
value is non-empty and parses as a url reference, `AnchorUrl` returns the
reference resolved against the navigator's current url and
`AnchorRequest` wraps it into a GET request; a node that is not an `<a>`
element, or whose `href` is absent (`firstHref = ""`, which an empty-valued
`href` also produces) or unparsable, yields an error. -/
theorem c9_anchor_url_resolution (M : Type) (parse : String → Option Scavenge.URL)
    (resolveReference : Scavenge.URL → Scavenge.URL → Scavenge.URL)
    (currentUrl ref : Scavenge.URL) (a : Nav.HtmlNode) :
    (a.data = "a" → a.nodeType = Nav.elementNode → Nav.firstHref a.attr ≠ "" →
      parse (Nav.firstHref a.attr) = some ref →
      Nav.anchorUrl parse resolveReference currentUrl a =
          Except.ok (resolveReference currentUrl ref) ∧
        Nav.anchorRequest M parse resolveReference currentUrl a =
          Except.ok (GETRequest M (resolveReference currentUrl ref))) ∧
    (a.data ≠ "a" ∨ a.nodeType ≠ Nav.elementNode →
      Nav.anchorUrl parse resolveReference currentUrl a =
        Except.error ("follow anchor: given html node was not an a tag")) ∧
    (a.data = "a" → a.nodeType = Nav.elementNode → Nav.firstHref a.attr = "" →
      Nav.anchorUrl parse resolveReference currentUrl a =
        Except.error ("follow anchor: could not find valid href on a tag")) ∧
    (a.data = "a" → a.nodeType = Nav.elementNode → Nav.firstHref a.attr ≠ "" →
      parse (Nav.firstHref a.attr) = none →
      Nav.anchorUrl parse resolveReference currentUrl a =
        Except.error ("follow anchor: url parse error")) ∧
    ((∀ p ∈ a.attr, p.1 ≠ "href") → Nav.firstHref a.attr = "") := by
  refine ⟨?_, ?_, ?_, ?_, firstHref_absent a.attr⟩
  · intro hd ht hh hp
    have hu : Nav.anchorUrl parse resolveReference currentUrl a =
        Except.ok (resolveReference currentUrl ref) := by
      simp only [Nav.anchorUrl, hd, ht]
      rw [if_neg (by simp), if_neg hh, hp]
    exact ⟨hu, by simp only [Nav.anchorRequest, hu]⟩
  · intro hor
    simp only [Nav.anchorUrl]
    rw [if_pos hor]
  · intro hd ht hh
    simp only [Nav.anchorUrl, hd, ht]
    rw [if_neg (by simp), if_pos hh]
  · intro hd ht hh hp
    simp only [Nav.anchorUrl, hd, ht]
    rw [if_neg (by simp), if_neg hh, hp]

open Scavenge in
/-- C9 witness: an `<a href="/b">` node resolves against the current url
under concrete parse/resolve functions. -/
theorem c9_anchor_url_resolution_witness :
    Nav.anchorUrl (fun s => some { host := s, hostname := s }) (fun _ r => r)
        (Fix.url ("c"))
        { nodeType := Nav.elementNode, data := "a", attr := [("href", "/b")] } =
      Except.ok { host := "/b", hostname := "/b" } :=
  ((c9_anchor_url_resolution Unit (fun s => some { host := s, hostname := s })
      (fun _ r => r) (Fix.url ("c")) { host := "/b", hostname := "/b" }
      { nodeType := Nav.elementNode, data := "a", attr := [("href", "/b")] }).1
    rfl rfl (by decide) rfl).1

open Scavenge in
/-- C9 counterexample: the node `<a href="">` is an `<a>` element carrying
an `href` attribute, yet `AnchorUrl` fails instead of returning the
resolution of the (parsable) empty reference against the current url. -/
theorem c9_counterexample :
    (("href", "") ∈
        ({ nodeType := Nav.elementNode, data := "a",
           attr := [("href", "")] } : Nav.HtmlNode).attr) ∧
      Nav.anchorUrl (fun s => some { host := s, hostname := s }) (fun _ r => r)
          (Fix.url ("c"))
          { nodeType := Nav.elementNode, data := "a", attr := [("href", "")] } =
        Except.error ("follow anchor: could not find valid href on a tag") ∧
      Nav.anchorUrl (fun s => some { host := s, hostname := s }) (fun _ r => r)
          (Fix.url ("c"))
          { nodeType := Nav.elementNode, data := "a", attr := [("href", "")] } ≠
        Except.ok { host := "", hostname := "" } := by
  refine ⟨by decide, rfl, fun h => Except.noConfusion h⟩

open Scavenge in
/-- C1: WaitGroup accounting of the scavenger.  Every job history starts
with the single `+1` of its enqueue (`queueReqJob` / `queueItemJob`; a
scheduled retry contributes its own `+1` inside the history); every event
is an increment or a decrement of exactly one; each complete history nets
zero, so every fully handled job - success, dropped, or a scheduled retry
that later re-enqueues or is abandoned - decrements exactly once.  Under
every interleaving of the per-job events, the counter never goes negative
and ends at zero, which is when `Run`'s `wg.Wait()` returns. -/
theorem c1_outstanding_counter_balance (js : List Sched.JobRun) (out : List Int)
    (hI : Sched.Interleaving (js.map Sched.jobEvents) out) :
    (∀ j : Sched.JobRun, (Sched.jobEvents j).head? = some 1) ∧
      (∀ j : Sched.JobRun, (Sched.jobEvents j).sum = 0) ∧
      (∀ j : Sched.JobRun, ∀ e ∈ Sched.jobEvents j, e = 1 ∨ e = -1) ∧
      out.sum = 0 ∧
      (∀ n, 0 ≤ (out.take n).sum) := by
  have hinv : ∀ i, i < (js.map Sched.jobEvents).length →
      Sched.SuffixOk ((js.map Sched.jobEvents)[i]?.getD []) ((fun _ => (0 : Int)) i) := by
    intro i hi
    rw [List.length_map] at hi
    have hcell : (js.map Sched.jobEvents)[i]? = some (Sched.jobEvents js[i]) := by
      rw [List.getElem?_map, List.getElem?_eq_getElem hi]
      rfl
    rw [hcell]
    show Sched.SuffixOk (Sched.jobEvents js[i]) 0
    refine ⟨le_refl 0, ?_, ?_⟩
    · rw [jobEvents_sum, neg_zero]
    · intro n
      rw [neg_zero]
      exact jobEvents_take js[i] n
  obtain ⟨hsum, htake⟩ := interleaving_inv hI (fun _ => (0 : Int)) hinv
  rw [Finset.sum_const, smul_zero, neg_zero] at hsum htake
  exact ⟨jobEvents_head, jobEvents_sum, jobEvents_mem, hsum, htake⟩

open Scavenge in
/-- C1 witness: one successfully handled job, with its only interleaving;
the counter sums to zero and a prefix stays non-negative. -/
theorem c1_outstanding_counter_balance_witness :
    ([1, -1] : List Int).sum = 0 ∧ 0 ≤ (([1, -1] : List Int).take 1).sum := by
  have hI : Sched.Interleaving
      ([Sched.JobRun.handled Sched.Handling.success].map Sched.jobEvents)
      [1, -1] := by
    refine Sched.Interleaving.step _ 0 1 [-1] _ rfl ?_
    refine Sched.Interleaving.step _ 0 (-1) [] _ rfl ?_
    refine Sched.Interleaving.done _ ?_
    intro t ht
    simpa using ht
  have h := c1_outstanding_counter_balance
    [Sched.JobRun.handled Sched.Handling.success] [1, -1] hI
  exact ⟨h.2.2.2.1, h.2.2.2.2 1⟩
